import Mathlib

/-! Verification of the mink scraper, `scraper.go`.

A shallow embedding of `scraper.go` (package `main` of qorpress/mink) together with the
parts of the Go standard library (`strings`, `net/url`, `time`) that decide what
`prepareAllowedDomain`, `Scraper.Scrape` and `Scraper.Report` compute.

* A Go `string` is an immutable sequence of bytes; it is modelled as `List Nat`
  (each element a byte value).  Source literals are written `str "..."`, the UTF-8
  encoding of the literal.
* A Go `(T, error)` result is modelled as `Except GoError T`.
* Calls on the crawl engine (`colly`), on `log`, on `sync.WaitGroup`, on `sync.Mutex`
  and reads of the map of statistics are recorded as a list of `Event`s, in program
  order; what the engine, the clock and the map iteration supply is a parameter.
-/

namespace Mink

deriving instance DecidableEq for Except

/-! ## Go strings -/

/-- A Go string: a sequence of bytes. -/
abbrev GoString := List Nat

/-- The byte of an ASCII character literal such as `'w'`. -/
abbrev ch (c : Char) : Nat := c.toNat

/-- UTF-8 encoding of one code point. -/
def utf8EncodeChar (c : Char) : List Nat :=
  let n := c.toNat
  if n < 0x80 then [n]
  else if n < 0x800 then [0xC0 + n / 0x40, 0x80 + n % 0x40]
  else if n < 0x10000 then [0xE0 + n / 0x1000, 0x80 + (n / 0x40) % 0x40, 0x80 + n % 0x40]
  else [0xF0 + n / 0x40000, 0x80 + (n / 0x1000) % 0x40, 0x80 + (n / 0x40) % 0x40,
        0x80 + n % 0x40]

/-- The Go string denoted by a string literal of the source (UTF-8 bytes). -/
def str (s : String) : GoString := s.data.flatMap utf8EncodeChar

/-! ## Package `strings` (Go standard library) -/

namespace strings

/-- Go's `strings.HasPrefix`. -/
def HasPrefix (s pre : GoString) : Bool := pre.isPrefixOf s

/-- Go's `strings.HasSuffix`. -/
def HasSuffix (s suf : GoString) : Bool := suf.isSuffixOf s

/-- Loop of `strings.Index`: first position `≥ i` at which `substr` starts. -/
def indexFrom (substr : GoString) : GoString → Nat → Option Nat
  | [], i => if substr = [] then some i else none
  | c :: s, i => if substr.isPrefixOf (c :: s) then some i else indexFrom substr s (i + 1)

/-- Go's `strings.Index`: `none` stands for Go's `-1`. -/
def Index (s substr : GoString) : Option Nat := indexFrom substr s 0

/-- Loop of `strings.LastIndex`: last position `≥ i` at which `substr` starts. -/
def lastIndexFrom (substr : GoString) : GoString → Nat → Option Nat
  | [], i => if substr = [] then some i else none
  | c :: s, i =>
    match lastIndexFrom substr s (i + 1) with
    | some j => some j
    | none => if substr.isPrefixOf (c :: s) then some i else none

/-- Go's `strings.LastIndex`: `none` stands for Go's `-1`. -/
def LastIndex (s substr : GoString) : Option Nat := lastIndexFrom substr s 0

/-- Go's `strings.LastIndexByte`. -/
def LastIndexByte (s : GoString) (c : Nat) : Option Nat := LastIndex s [c]

/-- Go's `strings.Contains`. -/
def Contains (s substr : GoString) : Bool := (Index s substr).isSome

/-- Go's `strings.Count` for a one-byte `substr` (the only use made of it by `net/url`). -/
def Count (s : GoString) (c : Nat) : Nat := s.count c

/-- Go's `strings.Cut`: the text before and after the first `sep`, and whether `sep` occurs. -/
def Cut (s sep : GoString) : GoString × GoString × Bool :=
  match Index s sep with
  | some i => (s.take i, s.drop (i + sep.length), true)
  | none => (s, [], false)

/-- Go's `strings.ToLower` on a string of ASCII bytes (bytes `≥ 0x80` are left alone:
`net/url` applies it to a scheme, which holds ASCII letters, digits, `+`, `-`, `.` only). -/
def ToLower (s : GoString) : GoString :=
  s.map fun b => if ch 'A' ≤ b ∧ b ≤ ch 'Z' then b + (ch 'a' - ch 'A') else b

/-- Go's `strings.trimLeftASCII`: drop leading bytes while they belong to the set. -/
def trimLeftASCII (s : GoString) (as : GoString) : GoString :=
  s.dropWhile fun b => as.contains b

/-- Go's `strings.TrimLeft` for a cutset of ASCII bytes: the cutset is a *set* of bytes,
and every leading byte of `s` that belongs to it is removed.  (For such a cutset Go
takes the `trimLeftByte` / `trimLeftASCII` branch, which works byte by byte.) -/
def TrimLeft (s cutset : GoString) : GoString :=
  if s = [] ∨ cutset = [] then s else trimLeftASCII s cutset

end strings

/-! ## Package `net/url` (Go standard library, `url.go` as of Go 1.22)

`prepareAllowedDomain` is decided by `url.ParseRequestURI` and `(*URL).Hostname`; they
are translated here function by function (`parse` with its helpers `getScheme`,
`parseAuthority`, `parseHost`, `unescape`, `setPath`, and `splitHostPort`). -/

namespace url

/-- Causes of a parse failure inside `net/url`. -/
inductive Cause where
  /-- An `errors.New("net/url: invalid control character in URL")`. -/
  | invalidControlCharacter
  /-- An `errors.New("empty url")`. -/
  | emptyURL
  /-- An `errors.New("missing protocol scheme")`. -/
  | missingProtocolScheme
  /-- An `errors.New("invalid URI for request")`. -/
  | invalidURIForRequest
  /-- An `errors.New("first path segment in URL cannot contain colon")`. -/
  | firstPathSegmentColon
  /-- An `errors.New("missing ']' in host")`. -/
  | missingBracketInHost
  /-- A `fmt.Errorf("invalid port %q after host", colonPort)`. -/
  | invalidPort (colonPort : GoString)
  /-- An `errors.New("net/url: invalid userinfo")`. -/
  | invalidUserinfo
  /-- An `EscapeError(s)`. -/
  | EscapeError (s : GoString)
  /-- An `InvalidHostError(s)`. -/
  | InvalidHostError (s : GoString)
  deriving DecidableEq, Repr

/-- The `url.Error` value: operation, URL and cause. -/
structure Error where
  Op : GoString
  URL : GoString
  Err : Cause
  deriving DecidableEq, Repr

/-- The `encoding` modes of `url.go`. -/
inductive encoding where
  | encodePath
  | encodePathSegment
  | encodeHost
  | encodeZone
  | encodeUserPassword
  | encodeQueryComponent
  | encodeFragment
  deriving DecidableEq, Repr

open encoding

/-- The `url.Userinfo` value. -/
structure Userinfo where
  username : GoString
  password : GoString
  passwordSet : Bool
  deriving DecidableEq, Repr

/-- The `url.URL` value (the fragment fields are never set by `ParseRequestURI`). -/
structure URL where
  Scheme : GoString := []
  Opaque : GoString := []
  User : Option Userinfo := none
  Host : GoString := []
  Path : GoString := []
  RawPath : GoString := []
  OmitHost : Bool := false
  ForceQuery : Bool := false
  RawQuery : GoString := []
  deriving DecidableEq, Repr

def isAlpha (c : Nat) : Bool :=
  (ch 'a' ≤ c && c ≤ ch 'z') || (ch 'A' ≤ c && c ≤ ch 'Z')

def isDigit (c : Nat) : Bool := ch '0' ≤ c && c ≤ ch '9'

/-- Function `ishex`. -/
def ishex (c : Nat) : Bool :=
  (ch '0' ≤ c && c ≤ ch '9') || (ch 'a' ≤ c && c ≤ ch 'f') || (ch 'A' ≤ c && c ≤ ch 'F')

/-- Function `unhex`. -/
def unhex (c : Nat) : Nat :=
  if ch '0' ≤ c ∧ c ≤ ch '9' then c - ch '0'
  else if ch 'a' ≤ c ∧ c ≤ ch 'f' then c - ch 'a' + 10
  else if ch 'A' ≤ c ∧ c ≤ ch 'F' then c - ch 'A' + 10
  else 0

/-- The byte `unhex(a)<<4 | unhex(b)`. -/
def hexByte (a b : Nat) : Nat := (unhex a * 16 + unhex b) % 256

/-- Function `shouldEscape`: whether byte `c` must be escaped in the given part of a URL. -/
def shouldEscape (c : Nat) (mode : encoding) : Bool :=
  if isAlpha c || isDigit c then false
  else if (mode = encodeHost ∨ mode = encodeZone) ∧
      c ∈ [ch '!', ch '$', ch '&', 0x27, ch '(', ch ')', ch '*', ch '+', ch ',', ch ';',
           ch '=', ch ':', ch '[', ch ']', ch '<', ch '>', 0x22] then false
  else if c ∈ [ch '-', ch '_', ch '.', ch '~'] then false
  else if c ∈ [ch '$', ch '&', ch '+', ch ',', ch '/', ch ':', ch ';', ch '=', ch '?',
               ch '@'] ∧ mode = encodePath then c == ch '?'
  else if c ∈ [ch '$', ch '&', ch '+', ch ',', ch '/', ch ':', ch ';', ch '=', ch '?',
               ch '@'] ∧ mode = encodePathSegment then
    c == ch '/' || c == ch ';' || c == ch ',' || c == ch '?'
  else if c ∈ [ch '$', ch '&', ch '+', ch ',', ch '/', ch ':', ch ';', ch '=', ch '?',
               ch '@'] ∧ mode = encodeUserPassword then
    c == ch '@' || c == ch '/' || c == ch '?' || c == ch ':'
  else if c ∈ [ch '$', ch '&', ch '+', ch ',', ch '/', ch ':', ch ';', ch '=', ch '?',
               ch '@'] ∧ mode = encodeQueryComponent then true
  else if c ∈ [ch '$', ch '&', ch '+', ch ',', ch '/', ch ':', ch ';', ch '=', ch '?',
               ch '@'] ∧ mode = encodeFragment then false
  else if mode = encodeFragment ∧ c ∈ [ch '!', ch '(', ch ')', ch '*'] then false
  else true

/-- First loop of `unescape`: counts the `%` escapes and checks that each is well
formed and allowed in the given part of the URL; returns `(n, hasPlus)`. -/
def unescapeScan (mode : encoding) : GoString → Nat → Bool → Except Cause (Nat × Bool)
  | [], n, hasPlus => .ok (n, hasPlus)
  | c :: rest, n, hasPlus =>
    if c = ch '%' then
      match rest with
      | a :: b :: rest2 =>
        if !ishex a || !ishex b then .error (.EscapeError [c, a, b])
        else if mode = encodeHost ∧ unhex a < 8 ∧ [c, a, b] ≠ str "%25" then
          .error (.EscapeError [c, a, b])
        else if mode = encodeZone ∧ [c, a, b] ≠ str "%25" ∧ hexByte a b ≠ ch ' ' ∧
            shouldEscape (hexByte a b) encodeHost then
          .error (.EscapeError [c, a, b])
        else unescapeScan mode rest2 (n + 1) hasPlus
      | _ => .error (.EscapeError (c :: rest))
    else if c = ch '+' then
      unescapeScan mode rest n (decide (mode = encodeQueryComponent))
    else if (mode = encodeHost ∨ mode = encodeZone) ∧ c < 0x80 ∧
        shouldEscape c encodeHost then
      .error (.InvalidHostError [c])
    else unescapeScan mode rest n hasPlus

/-- Second loop of `unescape`: replaces each `%XX` by its byte (and `+` by a space in a
query component). -/
def unescapeWrite (mode : encoding) : GoString → GoString
  | [] => []
  | c :: rest =>
    if c = ch '%' then
      match rest with
      | a :: b :: rest2 => hexByte a b :: unescapeWrite mode rest2
      | _ => []
    else if c = ch '+' then
      (if mode = encodeQueryComponent then ch ' ' else ch '+') :: unescapeWrite mode rest
    else c :: unescapeWrite mode rest

/-- Function `unescape`. -/
def unescape (s : GoString) (mode : encoding) : Except Cause GoString :=
  match unescapeScan mode s 0 false with
  | .error e => .error e
  | .ok (n, hasPlus) => if n = 0 ∧ hasPlus = false then .ok s else .ok (unescapeWrite mode s)

/-- The digit `"0123456789ABCDEF"[i]`. -/
def upperhex (i : Nat) : Nat := if i < 10 then ch '0' + i else ch 'A' + (i - 10)

/-- Function `escape`. -/
def escape (s : GoString) (mode : encoding) : GoString :=
  s.flatMap fun c =>
    if shouldEscape c mode then
      if c = ch ' ' ∧ mode = encodeQueryComponent then [ch '+']
      else [ch '%', upperhex (c / 16), upperhex (c % 16)]
    else [c]

/-- Function `stringContainsCTLByte`. -/
def stringContainsCTLByte (s : GoString) : Bool := s.any fun b => b < ch ' ' || b == 0x7f

/-- Loop of `getScheme`, at index `i` with `rest = rawURL[i:]`. -/
def getSchemeLoop (rawURL : GoString) : GoString → Nat → Except Cause (GoString × GoString)
  | [], _ => .ok ([], rawURL)
  | c :: rest, i =>
    if isAlpha c then getSchemeLoop rawURL rest (i + 1)
    else if isDigit c || c == ch '+' || c == ch '-' || c == ch '.' then
      if i = 0 then .ok ([], rawURL) else getSchemeLoop rawURL rest (i + 1)
    else if c = ch ':' then
      if i = 0 then .error .missingProtocolScheme
      else .ok (rawURL.take i, rawURL.drop (i + 1))
    else .ok ([], rawURL)

/-- Function `getScheme`: splits `scheme:rest`; the scheme is empty when there is none. -/
def getScheme (rawURL : GoString) : Except Cause (GoString × GoString) :=
  getSchemeLoop rawURL rawURL 0

/-- Function `validOptionalPort`: `port` is empty or `:` followed by digits. -/
def validOptionalPort (port : GoString) : Bool :=
  match port with
  | [] => true
  | c :: digits => if c ≠ ch ':' then false else digits.all fun b => !(b < ch '0' || b > ch '9')

/-- Function `validUserinfo` (a byte `≥ 0x80` decodes to a rune outside the allowed set). -/
def validUserinfo (s : GoString) : Bool :=
  s.all fun r =>
    (ch 'A' ≤ r && r ≤ ch 'Z') || (ch 'a' ≤ r && r ≤ ch 'z') ||
    (ch '0' ≤ r && r ≤ ch '9') ||
    [ch '-', ch '.', ch '_', ch ':', ch '~', ch '!', ch '$', ch '&', 0x27, ch '(', ch ')',
     ch '*', ch '+', ch ',', ch ';', ch '=', ch '%', ch '@'].contains r

/-- Function `parseHost`. -/
def parseHost (host : GoString) : Except Cause GoString :=
  if strings.HasPrefix host (str "[") then
    match strings.LastIndex host (str "]") with
    | none => .error .missingBracketInHost
    | some i =>
      let colonPort := host.drop (i + 1)
      if !validOptionalPort colonPort then .error (.invalidPort colonPort)
      else
        match strings.Index (host.take i) (str "%25") with
        | some zone =>
          match unescape (host.take zone) encodeHost with
          | .error e => .error e
          | .ok host1 =>
            match unescape ((host.take i).drop zone) encodeZone with
            | .error e => .error e
            | .ok host2 =>
              match unescape (host.drop i) encodeHost with
              | .error e => .error e
              | .ok host3 => .ok (host1 ++ host2 ++ host3)
        | none => unescape host encodeHost
  else
    match strings.LastIndex host (str ":") with
    | some i =>
      let colonPort := host.drop i
      if !validOptionalPort colonPort then .error (.invalidPort colonPort)
      else unescape host encodeHost
    | none => unescape host encodeHost

/-- Function `parseAuthority`: `[userinfo@]host`. -/
def parseAuthority (authority : GoString) : Except Cause (Option Userinfo × GoString) :=
  let i := strings.LastIndex authority (str "@")
  let hostRes := match i with
    | none => parseHost authority
    | some i => parseHost (authority.drop (i + 1))
  match hostRes with
  | .error e => .error e
  | .ok host =>
    match i with
    | none => .ok (none, host)
    | some i =>
      let userinfo := authority.take i
      if !validUserinfo userinfo then .error .invalidUserinfo
      else if !strings.Contains userinfo (str ":") then
        match unescape userinfo encodeUserPassword with
        | .error e => .error e
        | .ok userinfo => .ok (some ⟨userinfo, [], false⟩, host)
      else
        let (username, password, _) := strings.Cut userinfo (str ":")
        match unescape username encodeUserPassword with
        | .error e => .error e
        | .ok username =>
          match unescape password encodeUserPassword with
          | .error e => .error e
          | .ok password => .ok (some ⟨username, password, true⟩, host)

/-- Method `(*URL).setPath`. -/
def URL.setPath (u : URL) (p : GoString) : Except Cause URL :=
  match unescape p encodePath with
  | .error e => .error e
  | .ok path =>
    if p = escape path encodePath then .ok { u with Path := path, RawPath := [] }
    else .ok { u with Path := path, RawPath := p }

/-- Function `parse`: parses a URL from a string in one of two contexts; with
`viaRequest` the URL is assumed to have arrived via an HTTP request, and only an absolute URI or an
absolute path is accepted. -/
def parse (rawURL : GoString) (viaRequest : Bool) : Except Cause URL :=
  if stringContainsCTLByte rawURL then .error .invalidControlCharacter
  else if rawURL = [] ∧ viaRequest then .error .emptyURL
  else if rawURL = str "*" then .ok { Path := str "*" }
  else
    match getScheme rawURL with
    | .error e => .error e
    | .ok (scheme, rest) =>
      let url : URL := { Scheme := strings.ToLower scheme }
      let (url, rest) : URL × GoString :=
        if strings.HasSuffix rest (str "?") ∧ strings.Count rest (ch '?') = 1 then
          ({ url with ForceQuery := true }, rest.take (rest.length - 1))
        else
          let (before, after, _) := strings.Cut rest (str "?")
          ({ url with RawQuery := after }, before)
      if !strings.HasPrefix rest (str "/") ∧ url.Scheme ≠ [] then
        .ok { url with Opaque := rest }
      else if !strings.HasPrefix rest (str "/") ∧ viaRequest then
        .error .invalidURIForRequest
      else if !strings.HasPrefix rest (str "/") ∧
          strings.Contains (strings.Cut rest (str "/")).1 (str ":") then
        .error .firstPathSegmentColon
      else if (url.Scheme ≠ [] ∨ (!viaRequest ∧ !strings.HasPrefix rest (str "///"))) ∧
          strings.HasPrefix rest (str "//") then
        let authority := rest.drop 2
        let (authority, rest) : GoString × GoString :=
          match strings.Index authority (str "/") with
          | some i => (authority.take i, authority.drop i)
          | none => (authority, [])
        match parseAuthority authority with
        | .error e => .error e
        | .ok (user, host) => URL.setPath { url with User := user, Host := host } rest
      else if url.Scheme ≠ [] ∧ strings.HasPrefix rest (str "/") then
        URL.setPath { url with OmitHost := true } rest
      else URL.setPath url rest

/-- Go's `url.ParseRequestURI`: parses a raw URL received in an HTTP request; the string is
read only as an absolute URI or an absolute path. -/
def ParseRequestURI (rawURL : GoString) : Except Error URL :=
  match parse rawURL true with
  | .error err => .error ⟨str "parse", rawURL, err⟩
  | .ok url => .ok url

/-- Function `splitHostPort`: separates host and port; brackets of an IPv6 literal are removed. -/
def splitHostPort (hostPort : GoString) : GoString × GoString :=
  let (host, port) : GoString × GoString :=
    match strings.LastIndexByte hostPort (ch ':') with
    | some colon =>
      if validOptionalPort (hostPort.drop colon) then
        (hostPort.take colon, hostPort.drop (colon + 1))
      else (hostPort, [])
    | none => (hostPort, [])
  if strings.HasPrefix host (str "[") ∧ strings.HasSuffix host (str "]") then
    ((host.take (host.length - 1)).drop 1, port)
  else (host, port)

/-- Method `(*URL).Hostname`: `u.Host` with any valid port number and the square brackets of
an IPv6 literal removed. -/
def URL.Hostname (u : URL) : GoString := (splitHostPort u.Host).1

end url

/-! ## Package `time` (Go standard library) -/

namespace time

/-- A `time.Time` instant, as a position on a nanosecond time line. -/
structure Time where
  ns : Int
  deriving DecidableEq, Repr

/-- A `time.Duration`: a signed 64-bit count of nanoseconds. -/
abbrev Duration := Int

def minDuration : Duration := -(2 ^ 63)

def maxDuration : Duration := 2 ^ 63 - 1

/-- Method `Time.Sub`: the duration `t - u`; when it does not fit a `Duration` the minimum or
maximum duration is returned. -/
def Time.Sub (t u : Time) : Duration :=
  let d := t.ns - u.ns
  if d < minDuration then minDuration
  else if maxDuration < d then maxDuration
  else d

end time

/-! ## Package `colly` (the crawl engine): the values handed to the hooks -/

namespace colly

/-- A value of type `interface{}` kept in a request context. -/
inductive Any where
  | time (t : time.Time)
  | other (v : GoString)
  deriving DecidableEq, Repr

/-- Go's `colly.Context`: the key/value store shared by a request and its response. -/
abbrev Context := List (GoString × Any)

/-- Method `(*Context).Put`. -/
def Context.Put (c : Context) (key : GoString) (value : Any) : Context :=
  (key, value) :: c.filter fun kv => kv.1 ≠ key

/-- Method `(*Context).GetAny`: the value stored under `key`, `none` (Go's `nil`) when there
is none. -/
def Context.GetAny (c : Context) (key : GoString) : Option Any := c.lookup key

/-- Type `http.Header`. -/
abbrev Header := List (GoString × List GoString)

/-- Go's `colly.Request`; `URL` holds the text `r.URL.String()`. -/
structure Request where
  URL : GoString
  Depth : Int
  Ctx : Context
  deriving DecidableEq, Repr

/-- Go's `colly.Response`. -/
structure Response where
  StatusCode : Int
  Body : List Nat
  Ctx : Context
  Request : Request
  Headers : Option Header
  deriving DecidableEq, Repr

/-- Go's `colly.HTMLElement`: the attributes of the element and the request of its page. -/
structure HTMLElement where
  attributes : List (GoString × GoString)
  Request : Request
  deriving DecidableEq, Repr

/-- Method `(*HTMLElement).Attr`: the value of the first attribute named `k`, else `""`. -/
def HTMLElement.Attr (h : HTMLElement) (k : GoString) : GoString :=
  match h.attributes.find? fun a => a.1 = k with
  | some a => a.2
  | none => []

end colly

/-! ## `scraper.go` -/

/-- Values of Go's `error` interface met by the scraper: the `*url.Error` of
`url.ParseRequestURI`, the sentinel `colly.ErrAlreadyVisited`, and any other error
value of the crawl engine (identified by its message). -/
inductive GoError where
  | urlError (e : url.Error)
  | ErrAlreadyVisited
  | other (msg : GoString)
  deriving DecidableEq, Repr

/-- The constant `TIME_START`. -/
def TIME_START : GoString := str "start"

/-- The `PageResponse` struct (scraper.go, lines 19-26); a field left out of a
composite literal has its zero value. -/
structure PageResponse where
  Url : GoString := []
  StatusCode : Int := 0
  Data : List Nat := []
  Depth : Int := 0
  Duration : time.Duration := 0
  Headers : Option colly.Header := none
  deriving DecidableEq, Repr

/-- The `Scraper` struct (scraper.go, lines 28-38).  `P` is the type `*PageStats`,
declared outside this file.  `stats` is the map `map[string]*PageStats`, given by the
list of its entries (`none` is the nil map).  The fields `waitGroup` and `mutex` are
synchronisation objects without data of their own: the calls made on them appear as
events. -/
structure Scraper (P : Type) where
  ID : Int
  MaxDepth : Int
  Website : GoString
  Recursively : Bool
  PrintLogs : Bool
  Async : Bool
  stats : Option (List (GoString × P))

/-- An argument of `Scraper.Log`. -/
inductive LogArg where
  | text (s : GoString)
  | int (n : Int)
  | error (e : GoError)
  /-- The string `err.Error()`. -/
  | errorText (e : GoError)
  deriving DecidableEq, Repr

/-- What the scraper does to the outside world, in program order. -/
inductive Event where
  /-- The call `log.Print("Scraper ", "#", ID, " ", v)`: one line written to the log. -/
  | logPrint (ID : Int) (v : List LogArg)
  /-- The call `colly.NewCollector()`. -/
  | NewCollector
  /-- The call `extensions.RandomUserAgent(c)`. -/
  | RandomUserAgent
  /-- The assignment `c.MaxDepth = n`. -/
  | setMaxDepth (n : Int)
  /-- The assignment `c.Async = b`. -/
  | setAsync (b : Bool)
  /-- The assignment `c.AllowedDomains = ds`. -/
  | setAllowedDomains (ds : List GoString)
  /-- The call `c.OnRequest(...)`: the request hook is registered. -/
  | OnRequest
  /-- The call `c.OnResponse(...)`: the response hook is registered. -/
  | OnResponse
  /-- The call `c.OnHTML(selector, ...)`: the link hook is registered. -/
  | OnHTML (selector : GoString)
  /-- The call `c.Visit(URL)`. -/
  | Visit (URL : GoString)
  /-- The call `c.Wait()`. -/
  | Wait
  /-- The call `r.Ctx.Put(key, value)` of the request hook. -/
  | ctxPut (key : GoString) (value : colly.Any)
  /-- The call `e.Request.Visit(link)` of the link hook. -/
  | requestVisit (link : GoString)
  /-- The call `s.waitGroup.Add(delta)`. -/
  | waitGroupAdd (delta : Int)
  /-- The call `s.waitGroup.Wait()`. -/
  | waitGroupWait
  /-- The statement `go s.processPage(p)`: one processing task is started. -/
  | goProcessPage (p : PageResponse)
  /-- The call `s.mutex.Lock()`. -/
  | mutexLock
  /-- The call `s.mutex.Unlock()`. -/
  | mutexUnlock
  /-- A read `len(s.stats)`. -/
  | statsLen
  /-- The read `range s.stats`. -/
  | statsRange
  deriving DecidableEq, Repr

variable {P : Type}

/-- Function `prepareAllowedDomain` (scraper.go, lines 40-55). -/
def prepareAllowedDomain (requestURL : GoString) : Except GoError (List GoString) :=
  match url.ParseRequestURI requestURL with
  | .error err => .error (.urlError err)
  | .ok u =>
    let hostname := u.Hostname
    let domain := strings.TrimLeft hostname (str "wwww.")
    .ok [
      domain,
      str "www." ++ domain,
      str "http://" ++ domain,
      str "https://" ++ domain,
      str "http://www." ++ domain,
      str "https://www." ++ domain
    ]

/-- Method `Scraper.Log` (scraper.go, lines 57-61): writes a line only when `PrintLogs` is
set. -/
def Scraper.Log (s : Scraper P) (v : List LogArg) : List Event :=
  if s.PrintLogs then [.logPrint s.ID v] else []

/-- How a call ends: it returns, or a panic leaves it. -/
inductive Outcome (α : Type) where
  | returned (a : α)
  | panicked
  deriving DecidableEq, Repr

/-- The request hook of `Scrape` (lines 79-81); `now` is the reading of `time.Now()`.
The result is the request with its context updated, and the events. -/
def Scraper.onRequest (_s : Scraper P) (r : colly.Request) (now : time.Time) :
    colly.Request × List Event :=
  ({ r with Ctx := r.Ctx.Put TIME_START (.time now) }, [.ctxPut TIME_START (.time now)])

/-- The response hook of `Scrape` (lines 83-100); `now` is the reading of `time.Now()`.
The hook panics when the type assertion `start.(time.Time)` fails. -/
def Scraper.onResponse (s : Scraper P) (r : colly.Response) (now : time.Time) :
    Outcome Unit × List Event :=
  let t0 := s.Log [.text (str "Received response from"), .text r.Request.URL]
  let p : PageResponse := {
    Url := r.Request.URL,
    Data := r.Body,
    StatusCode := r.StatusCode,
    Depth := r.Request.Depth,
    Headers := r.Headers
  }
  let start := r.Ctx.GetAny TIME_START
  let p : Outcome PageResponse :=
    match start with
    | none => .returned p
    | some (.time start) => .returned { p with Duration := now.Sub start }
    | some (.other _) => .panicked
  match p with
  | .panicked => (.panicked, t0)
  | .returned p => (.returned (), t0 ++ [.waitGroupAdd 1, .goProcessPage p])

/-- The link hook of `Scrape` (lines 103-111); `visit` is what `e.Request.Visit(link)`
returns. -/
def Scraper.onHTML (s : Scraper P) (e : colly.HTMLElement) (visit : Option GoError) :
    List Event :=
  let link := e.Attr (str "href")
  s.Log [.text (str "visiting: "), .text link] ++ [.requestVisit link] ++
    match visit with
    | none => []
    | some err =>
      if err ≠ .ErrAlreadyVisited then
        s.Log [.text (str "error while linking: "), .errorText err]
      else []

/-- One invocation of a hook by the crawl engine, with what the engine and the clock
supply to it. -/
inductive Callback where
  | request (r : colly.Request) (now : time.Time)
  | response (r : colly.Response) (now : time.Time)
  | html (e : colly.HTMLElement) (visit : Option GoError)
  deriving DecidableEq, Repr

/-- A behaviour of the crawl engine during one `Scrape`: what `c.Visit(s.Website)`
returns, and the hook invocations made before `c.Visit` and before `c.Wait` return. -/
structure EngineRun where
  visit : Option GoError
  duringVisit : List Callback
  duringWait : List Callback
  deriving DecidableEq, Repr

/-- The hook that the engine invokes for a callback: how it ends, and its events. -/
def Scraper.runHook (s : Scraper P) : Callback → Outcome Unit × List Event
  | .request r now => (.returned (), (s.onRequest r now).2)
  | .response r now => s.onResponse r now
  | .html e visit => (.returned (), s.onHTML e visit)

/-- The engine invokes the hooks one after another; a panic stops it. The result is
the events of the hooks and whether one of them panicked. -/
def Scraper.runHooks (s : Scraper P) : List Callback → List Event × Bool
  | [] => ([], false)
  | cb :: rest =>
    match s.runHook cb with
    | (.panicked, evs) => (evs, true)
    | (.returned _, evs) =>
      let (evs', panicked) := s.runHooks rest
      (evs ++ evs', panicked)

/-- Method `Scraper.Scrape` (scraper.go, lines 63-125) against a behaviour of the engine: the
returned error (`none` is `nil`) and the events in program order. -/
def Scraper.Scrape (s : Scraper P) (run : EngineRun) : Outcome (Option GoError) × List Event :=
  let t0 := s.Log [.text (str "About to scrap"), .text s.Website] ++
    [.NewCollector, .RandomUserAgent, .setMaxDepth s.MaxDepth, .setAsync s.Async]
  match prepareAllowedDomain s.Website with
  | .error err =>
    (.returned (some err),
      t0 ++ s.Log [.text (str "Failed to prepare allowed domains."), .error err])
  | .ok allowedDomains =>
    let t1 := t0 ++ [.setAllowedDomains allowedDomains, .OnRequest, .OnResponse,
      .OnHTML (str "a[href]"), .Visit s.Website]
    match s.runHooks run.duringVisit with
    | (evs, true) => (.panicked, t1 ++ evs)
    | (evs, false) =>
      let t2 := t1 ++ evs ++
        (match run.visit with
         | some err => s.Log [.text (str "error while visiting:"), .errorText err]
         | none => []) ++
        s.Log [.text (str "Waiting for the scape to finish...")] ++ [.Wait]
      match s.runHooks run.duringWait with
      | (evs, true) => (.panicked, t2 ++ evs)
      | (evs, false) =>
        (.returned none,
          t2 ++ evs ++ s.Log [.text (str "Waiting for the page processing to finish...")] ++
            [.waitGroupWait])

/-- The order in which a `range` over a map visits the entries: Go leaves it
unspecified, each entry is visited once. -/
structure RangeOrder where
  visit : {α : Type} → List α → List α
  perm : ∀ {α : Type} (l : List α), (visit l).Perm l

/-- Go's `len(m)` of a map (`0` for the nil map). -/
def len (m : Option (List (GoString × P))) : Nat :=
  match m with
  | none => 0
  | some entries => entries.length

/-- The entries visited by `range m`, in the order chosen by the runtime (none for the
nil map). -/
def range (m : Option (List (GoString × P))) (order : RangeOrder) : List (GoString × P) :=
  match m with
  | none => []
  | some entries => order.visit entries

/-- Method `Scraper.Report` (scraper.go, lines 127-134): the returned slice, the scraper
after the call and the events in program order. -/
def Scraper.Report (s : Scraper P) (order : RangeOrder) : List P × Scraper P × List Event :=
  let t0 := [Event.statsLen] ++ s.Log [.text (str "Reporting stats count"), .int (len s.stats)]
  let result : List P := []
  let t1 := t0 ++ [Event.statsLen]
  let result := (range s.stats order).foldl (fun result kv => result ++ [kv.2]) result
  (result, s, t1 ++ [Event.statsRange])


/-! ## Predicates used to state the properties -/

/-- Whether the context handed to a response callback holds, under `TIME_START`, a
`time.Time` or nothing (the request hook of `Scrape` is the only writer of that key, and
it stores a `time.Time`). -/
def Callback.startIsTime : Callback → Bool
  | .response r _ =>
    match r.Ctx.GetAny TIME_START with
    | some (.other _) => false
    | _ => true
  | _ => true

/-- Every response callback of the run satisfies `Callback.startIsTime`. -/
def EngineRun.startIsTime (run : EngineRun) : Bool :=
  run.duringVisit.all Callback.startIsTime && run.duringWait.all Callback.startIsTime

/-- The callback with the result of its link `Visit` replaced. -/
def Callback.mapVisit (f : Option GoError → Option GoError) : Callback → Callback
  | .html e visit => .html e (f visit)
  | cb => cb

/-- The run with the result of every link `Visit` replaced. -/
def EngineRun.mapVisit (f : Option GoError → Option GoError) (run : EngineRun) : EngineRun :=
  { run with
    duringVisit := run.duringVisit.map (Callback.mapVisit f),
    duringWait := run.duringWait.map (Callback.mapVisit f) }

/-- The delta of a `waitGroup.Add` event. -/
def Event.added : Event → Option Int
  | .waitGroupAdd delta => some delta
  | _ => none

/-- The page of a `go s.processPage(p)` event. -/
def Event.spawned : Event → Option PageResponse
  | .goProcessPage p => some p
  | _ => none

/-- Whether the event is a line written to the log. -/
def Event.isLog : Event → Bool
  | .logPrint _ _ => true
  | _ => false

/-- Whether the event calls the crawl engine to register a hook, to fetch or to drain. -/
def Event.usesEngine : Event → Bool
  | .OnRequest | .OnResponse | .OnHTML _ | .Visit _ | .Wait | .requestVisit _ => true
  | _ => false

/-- Whether every read of the store in the sequence happens while the mutex is held:
`held` tells whether it is held before the first event. -/
def readsUnderLock : Bool → List Event → Bool
  | _, [] => true
  | held, e :: es =>
    match e with
    | .mutexLock => readsUnderLock true es
    | .mutexUnlock => readsUnderLock false es
    | .statsLen => held && readsUnderLock held es
    | .statsRange => held && readsUnderLock held es
    | _ => readsUnderLock held es

/-- The values of the entries of the store. -/
def values (m : Option (List (GoString × P))) : List P :=
  match m with
  | none => []
  | some entries => entries.map Prod.snd

/-! ## Concrete inputs -/

/-- A scraper of `https://www.example.com/start` that writes its log. -/
def exampleScraper : Scraper Nat :=
  { ID := 7, MaxDepth := 2, Website := str "https://www.example.com/start",
    Recursively := true, PrintLogs := true, Async := false,
    stats := some [(str "https://www.example.com/start", 1),
      (str "https://www.example.com/a", 2)] }

/-- The same scraper with `PrintLogs` off. -/
def quietScraper : Scraper Nat := { exampleScraper with PrintLogs := false }

/-- A request of depth 1, as the request hook leaves it at time `1000`. -/
def exampleRequest : colly.Request :=
  (exampleScraper.onRequest
    { URL := str "https://www.example.com/a", Depth := 1, Ctx := [] } ⟨1000⟩).1

/-- A response to `exampleRequest`. -/
def exampleResponse : colly.Response :=
  { StatusCode := 200, Body := str "<html></html>", Ctx := exampleRequest.Ctx,
    Request := exampleRequest, Headers := some [(str "Content-Type", [str "text/html"])] }

/-- An anchor `<a href="https://other.org/">` of the page of `exampleRequest`. -/
def exampleAnchor : colly.HTMLElement :=
  { attributes := [(str "href", str "https://other.org/")], Request := exampleRequest }

/-- An engine run in which the seed `Visit` fails, one link `Visit` reports "already
visited" and another one a different error. -/
def exampleRun : EngineRun :=
  { visit := some (.other (str "Not Found")),
    duringVisit := [.request exampleRequest ⟨1000⟩, .response exampleResponse ⟨1500⟩,
      .html exampleAnchor (some .ErrAlreadyVisited),
      .html exampleAnchor (some (.other (str "Forbidden domain")))],
    duringWait := [] }

/-- The map iteration that visits the entries last to first. -/
def reverseOrder : RangeOrder := ⟨List.reverse, List.reverse_perm⟩

/-- The map iteration that visits the entries first to last. -/
def listOrder : RangeOrder := ⟨id, fun _ => List.Perm.refl _⟩

/-! ## Properties of the leading trim -/

/-- The cutset `"wwww."` of `prepareAllowedDomain` is the set of the bytes `w` and `.`. -/
theorem cutset_contains (b : Nat) :
    (str "wwww.").contains b = (b == ch 'w' || b == ch '.') := by
  have h : str "wwww." = [ch 'w', ch 'w', ch 'w', ch 'w', ch '.'] := by decide
  rw [h, Bool.eq_iff_iff]
  simp

/-- The leading trim of `prepareAllowedDomain`. -/
theorem trim_eq (h : GoString) :
    strings.TrimLeft h (str "wwww.") = h.dropWhile fun b => b == ch 'w' || b == ch '.' := by
  unfold strings.TrimLeft strings.trimLeftASCII
  have hc : (fun b => (str "wwww.").contains b) = fun b => b == ch 'w' || b == ch '.' :=
    funext cutset_contains
  rw [hc]
  split
  · rename_i h0
    rcases h0 with h0 | h0
    · subst h0; rfl
    · exact absurd h0 (by decide)
  · rfl

/-- The first element left by `dropWhile` does not satisfy the predicate. -/
theorem head_dropWhile (p : Nat → Bool) (l : List Nat) (x : Nat)
    (hx : (l.dropWhile p).head? = some x) : p x = false := by
  induction l with
  | nil => simp at hx
  | cons a l ih =>
    rw [List.dropWhile_cons] at hx
    by_cases ha : p a = true
    · rw [if_pos ha] at hx; exact ih hx
    · rw [if_neg ha] at hx
      simp at hx; subst hx; simpa using ha

/-- What `prepareAllowedDomain` returns for a seed that `url.ParseRequestURI` accepts. -/
theorem prepareAllowedDomain_ok (requestURL : GoString) (u : url.URL)
    (hu : url.ParseRequestURI requestURL = .ok u) :
    prepareAllowedDomain requestURL =
      .ok [strings.TrimLeft u.Hostname (str "wwww."),
           str "www." ++ strings.TrimLeft u.Hostname (str "wwww."),
           str "http://" ++ strings.TrimLeft u.Hostname (str "wwww."),
           str "https://" ++ strings.TrimLeft u.Hostname (str "wwww."),
           str "http://www." ++ strings.TrimLeft u.Hostname (str "wwww."),
           str "https://www." ++ strings.TrimLeft u.Hostname (str "wwww.")] := by
  simp only [prepareAllowedDomain, hu]

/-- A seed that `url.ParseRequestURI` rejects is rejected with the same error. -/
theorem prepareAllowedDomain_error (requestURL : GoString) (e : url.Error)
    (hu : url.ParseRequestURI requestURL = .error e) :
    prepareAllowedDomain requestURL = .error (.urlError e) := by
  simp only [prepareAllowedDomain, hu]

/-- C1: for every seed that `prepareAllowedDomain` accepts, the result is the list of
exactly six strings `d`, `"www."+d`, `"http://"+d`, `"https://"+d`, `"http://www."+d`,
`"https://www."+d`, in this order, where `d` is the hostname of the parsed seed after the
leading trim; `d` occurs in each of the six.  For the seed
`https://www.example.com/start` the six strings are those of `example.com`. -/
theorem prepareAllowedDomain_six_strings :
    (∀ (requestURL : GoString) (allowed : List GoString),
      prepareAllowedDomain requestURL = .ok allowed →
      ∃ u d, url.ParseRequestURI requestURL = .ok u ∧
        d = strings.TrimLeft u.Hostname (str "wwww.") ∧
        allowed = [d, str "www." ++ d, str "http://" ++ d, str "https://" ++ d,
                   str "http://www." ++ d, str "https://www." ++ d] ∧
        allowed.length = 6 ∧ ∀ a ∈ allowed, d <:+: a) ∧
    prepareAllowedDomain (str "https://www.example.com/start") =
      .ok [str "example.com", str "www.example.com", str "http://example.com",
           str "https://example.com", str "http://www.example.com",
           str "https://www.example.com"] := by
  refine ⟨?_, by decide⟩
  intro requestURL allowed h
  cases hu : url.ParseRequestURI requestURL with
  | error e => rw [prepareAllowedDomain_error _ _ hu] at h; cases h
  | ok u =>
    rw [prepareAllowedDomain_ok _ _ hu] at h
    injection h with h
    refine ⟨u, _, rfl, rfl, h.symm, by rw [← h]; rfl, ?_⟩
    intro a ha
    rw [← h] at ha
    simp only [List.mem_cons, List.mem_singleton, List.not_mem_nil, or_false] at ha
    rcases ha with rfl | rfl | rfl | rfl | rfl | rfl
    · exact List.infix_refl _
    all_goals exact (List.suffix_append _ _).isInfix

/-- The six strings of the seed `http://example.org:8080/`. -/
theorem prepareAllowedDomain_six_strings_witness :
    ∃ u d, url.ParseRequestURI (str "http://example.org:8080/") = .ok u ∧
        d = strings.TrimLeft u.Hostname (str "wwww.") ∧
        [str "example.org", str "www.example.org", str "http://example.org",
          str "https://example.org", str "http://www.example.org",
          str "https://www.example.org"] =
          [d, str "www." ++ d, str "http://" ++ d, str "https://" ++ d,
                   str "http://www." ++ d, str "https://www." ++ d] ∧
        [str "example.org", str "www.example.org", str "http://example.org",
          str "https://example.org", str "http://www.example.org",
          str "https://www.example.org"].length = 6 ∧
        ∀ a ∈ [str "example.org", str "www.example.org", str "http://example.org",
          str "https://example.org", str "http://www.example.org",
          str "https://www.example.org"], d <:+: a :=
  prepareAllowedDomain_six_strings.1 (str "http://example.org:8080/") _ (by decide)

/-- Prefixing a hostname with `"www."` does not change its trim. -/
theorem trim_www (h : GoString) :
    strings.TrimLeft (str "www." ++ h) (str "wwww.") = strings.TrimLeft h (str "wwww.") := by
  rw [trim_eq, trim_eq]
  have hw : str "www." = [ch 'w', ch 'w', ch 'w', ch '.'] := by decide
  rw [hw]
  simp [List.dropWhile_cons]

/-- C10: the leading trim of `prepareAllowedDomain` is a canonicalisation.  For every
hostname `h` the bare domain `d` is a suffix of `h`, does not begin with `w` or `.`, the
removed prefix holds only the bytes `w` and `.`, and trimming `d` or `"www."+d` gives `d`
again; two accepted seeds whose hostnames are `h` and `"www."+h` therefore get the same
six allowed domains. -/
theorem trim_canonical :
    (∀ h : GoString, ∀ d, d = strings.TrimLeft h (str "wwww.") →
      d <:+ h ∧ d.head? ≠ some (ch 'w') ∧ d.head? ≠ some (ch '.') ∧
      (∃ removed, h = removed ++ d ∧ ∀ b ∈ removed, b = ch 'w' ∨ b = ch '.') ∧
      strings.TrimLeft d (str "wwww.") = d ∧
      strings.TrimLeft (str "www." ++ d) (str "wwww.") = d) ∧
    (∀ (seed₁ seed₂ : GoString) (u₁ u₂ : url.URL),
      url.ParseRequestURI seed₁ = .ok u₁ → url.ParseRequestURI seed₂ = .ok u₂ →
      u₂.Hostname = str "www." ++ u₁.Hostname →
      prepareAllowedDomain seed₁ = prepareAllowedDomain seed₂) := by
  constructor
  · intro h d hd
    have hd' : d = h.dropWhile fun b => b == ch 'w' || b == ch '.' := by rw [hd, trim_eq]
    have idem : strings.TrimLeft d (str "wwww.") = d := by
      rw [trim_eq, hd', List.dropWhile_idempotent]
    refine ⟨?_, ?_, ?_, ?_, idem, ?_⟩
    · rw [hd']; exact List.dropWhile_suffix _
    · intro hw
      rw [hd'] at hw
      have := head_dropWhile _ _ _ hw
      simp at this
    · intro hw
      rw [hd'] at hw
      have := head_dropWhile _ _ _ hw
      simp at this
    · refine ⟨h.takeWhile fun b => b == ch 'w' || b == ch '.', ?_, ?_⟩
      · rw [hd', List.takeWhile_append_dropWhile]
      · intro b hb
        have := List.mem_takeWhile_imp hb
        simpa using this
    · rw [trim_www, idem]
  · intro seed₁ seed₂ u₁ u₂ h₁ h₂ hh
    rw [prepareAllowedDomain_ok _ _ h₁, prepareAllowedDomain_ok _ _ h₂, hh, trim_www]

/-- The seeds `http://example.com:8080/a` and `https://www.example.com/b?x=1`. -/
theorem trim_canonical_witness :
    prepareAllowedDomain (str "http://example.com:8080/a") =
      prepareAllowedDomain (str "https://www.example.com/b?x=1") :=
  trim_canonical.2 (str "http://example.com:8080/a") (str "https://www.example.com/b?x=1")
    { Scheme := str "http", Host := str "example.com:8080", Path := str "/a" }
    { Scheme := str "https", Host := str "www.example.com", Path := str "/b",
      RawQuery := str "x=1" }
    (by decide) (by decide) (by decide)

/-- C6 (as amended): for every accepted seed with hostname `h`, the bare domain (first
element of the result of `prepareAllowedDomain`) is `h` without its longest prefix made
of the bytes `w` and `.` (the set of the cutset `"wwww."`), and no other byte is removed:
`wwwx.example.com` gives `x.example.com`, `wally.example.com` gives `ally.example.com`
and `w.w.w.example.com` gives `example.com`. -/
theorem bare_domain_trim :
    (∀ (seed : GoString) (u : url.URL) (allowed : List GoString),
      url.ParseRequestURI seed = .ok u → prepareAllowedDomain seed = .ok allowed →
      allowed.head? = some (u.Hostname.dropWhile fun b => b == ch 'w' || b == ch '.')) ∧
    (prepareAllowedDomain (str "http://wwwx.example.com/")).map List.head? =
      .ok (some (str "x.example.com")) ∧
    (prepareAllowedDomain (str "http://wally.example.com/")).map List.head? =
      .ok (some (str "ally.example.com")) ∧
    (prepareAllowedDomain (str "http://w.w.w.example.com/")).map List.head? =
      .ok (some (str "example.com")) := by
  refine ⟨?_, by decide, by decide, by decide⟩
  intro seed u allowed hu h
  rw [prepareAllowedDomain_ok _ _ hu] at h
  injection h with h
  rw [← h, trim_eq]; rfl

/-- The bare domain of the seed `https://www.example.com/start`. -/
theorem bare_domain_trim_witness :
    [str "example.com", str "www.example.com", str "http://example.com",
      str "https://example.com", str "http://www.example.com",
      str "https://www.example.com"].head? =
    some ((str "www.example.com").dropWhile fun b => b == ch 'w' || b == ch '.') :=
  bare_domain_trim.1 (str "https://www.example.com/start")
    { Scheme := str "https", Host := str "www.example.com", Path := str "/start" } _
    (by decide) (by decide)

/-- C6, counterexample to the claim as stated: the hostname of
`https://www.example.com/start` is `www.example.com`; without its longest prefix of `w`
alone it is `.example.com`, but the bare domain is `example.com`. -/
theorem bare_domain_not_w_only :
    (url.ParseRequestURI (str "https://www.example.com/start")).map url.URL.Hostname =
      .ok (str "www.example.com") ∧
    (prepareAllowedDomain (str "https://www.example.com/start")).map List.head? =
      .ok (some (str "example.com")) ∧
    (str "www.example.com").dropWhile (fun b => b == ch 'w') = str ".example.com" ∧
    str "example.com" ≠ str ".example.com" := by
  decide

/-- A prefix of `s` begins with `/` only if `s` does. -/
theorem hasPrefix_slash_take (s : GoString) (n : Nat)
    (h : strings.HasPrefix s (str "/") = false) :
    strings.HasPrefix (s.take n) (str "/") = false := by
  have hs : str "/" = [ch '/'] := by decide
  rw [hs] at h ⊢
  cases s with
  | nil => simp [strings.HasPrefix, List.isPrefixOf]
  | cons c s =>
    cases n with
    | zero => simp [strings.HasPrefix, List.isPrefixOf]
    | succ n => simpa [strings.HasPrefix, List.isPrefixOf] using h

/-- The text before the first `sep` begins with `/` only if `s` does. -/
theorem hasPrefix_slash_cut (s sep : GoString)
    (h : strings.HasPrefix s (str "/") = false) :
    strings.HasPrefix (strings.Cut s sep).1 (str "/") = false := by
  unfold strings.Cut
  split
  · exact hasPrefix_slash_take _ _ h
  · exact h

/-- A seed without scheme that does not begin with `/` and is not `*` is rejected by
`url.parse` in request mode. -/
theorem parse_rejects_rootless (seed : GoString) (hstar : seed ≠ str "*")
    (hscheme : url.getScheme seed = .ok ([], seed))
    (hslash : strings.HasPrefix seed (str "/") = false) :
    ∃ cause, url.parse seed true = .error cause := by
  unfold url.parse
  by_cases h1 : url.stringContainsCTLByte seed = true
  · exact ⟨_, by rw [if_pos h1]⟩
  rw [if_neg h1]
  by_cases h2 : seed = [] ∧ true = true
  · exact ⟨_, by rw [if_pos h2]⟩
  rw [if_neg h2, if_neg hstar, hscheme]
  have hl : strings.ToLower [] = [] := rfl
  simp only [hl]
  by_cases h3 : strings.HasSuffix seed (str "?") = true ∧ strings.Count seed (ch '?') = 1
  · refine ⟨.invalidURIForRequest, ?_⟩
    rw [if_pos h3]
    simp [hasPrefix_slash_take _ _ hslash]
  · refine ⟨.invalidURIForRequest, ?_⟩
    rw [if_neg h3]
    have := hasPrefix_slash_cut seed (str "?") hslash
    simp [this]

/-- Go's `strings.Index` from position `k` finds positions `≥ k`. -/
theorem indexFrom_ge (substr s : GoString) (k i : Nat)
    (h : strings.indexFrom substr s k = some i) : k ≤ i := by
  induction s generalizing k with
  | nil =>
    unfold strings.indexFrom at h
    split at h
    · injection h with h; omega
    · cases h
  | cons c s ih =>
    unfold strings.indexFrom at h
    split at h
    · injection h with h; omega
    · have := ih _ h; omega

/-- A path without `%` is its own unescaped form. -/
theorem unescapeScan_path (s : GoString) (n : Nat) (h : ch '%' ∉ s) :
    url.unescapeScan .encodePath s n false = .ok (n, false) := by
  induction s with
  | nil => rfl
  | cons c s ih =>
    simp only [List.mem_cons, not_or] at h
    unfold url.unescapeScan
    rw [if_neg (fun hc => h.1 hc.symm)]
    by_cases hp : c = ch '+'
    · rw [if_pos hp]
      have : decide (url.encoding.encodePath = url.encoding.encodeQueryComponent) = false := by
        decide
      rw [this]
      exact ih h.2
    · rw [if_neg hp, if_neg (fun hh => by rcases hh.1 with h' | h' <;> cases h')]
      exact ih h.2

/-- A path without `%` is accepted by `setPath` and leaves the host as it is. -/
theorem setPath_plain (u : url.URL) (p : GoString) (h : ch '%' ∉ p) :
    ∃ u', url.URL.setPath u p = .ok u' ∧ u'.Host = u.Host := by
  unfold url.URL.setPath url.unescape
  rw [unescapeScan_path p 0 h]
  simp only [and_self, if_true]
  split
  · exact ⟨_, rfl, rfl⟩
  · exact ⟨_, rfl, rfl⟩

/-- An absolute path without control byte and without `%` is accepted by `url.parse` in
request mode, with an empty host. -/
theorem parse_accepts_absolute_path (seed : GoString)
    (hslash : strings.HasPrefix seed (str "/") = true)
    (hctl : url.stringContainsCTLByte seed = false) (hpct : ch '%' ∉ seed) :
    ∃ u, url.parse seed true = .ok u ∧ u.Host = [] := by
  have hs : str "/" = [ch '/'] := by decide
  have hq : str "?" = [ch '?'] := by decide
  rw [hs] at hslash
  obtain ⟨tl, rfl⟩ : ∃ tl, seed = ch '/' :: tl := by
    cases seed with
    | nil => simp [strings.HasPrefix, List.isPrefixOf] at hslash
    | cons c tl =>
      refine ⟨tl, ?_⟩
      simp [strings.HasPrefix, List.isPrefixOf] at hslash
      rw [hslash]
  have hscheme : url.getScheme (ch '/' :: tl) = .ok ([], ch '/' :: tl) := by
    unfold url.getScheme url.getSchemeLoop
    rw [if_neg (by decide), if_neg (by decide), if_neg (by decide)]
  have hstar : (ch '/' :: tl) ≠ str "*" := by
    intro h
    have h2 : str "*" = [ch '*'] := by decide
    rw [h2] at h
    injection h with h _
    revert h; decide
  have hpre : ∀ k, 0 < k → strings.HasPrefix ((ch '/' :: tl).take k) (str "/") = true := by
    intro k hk
    obtain ⟨k', rfl⟩ : ∃ k', k = k' + 1 := ⟨k - 1, by omega⟩
    rw [hs]; simp [strings.HasPrefix, List.isPrefixOf]
  have hnp : ∀ k, ch '%' ∉ (ch '/' :: tl).take k :=
    fun k hm => hpct (List.mem_of_mem_take hm)
  unfold url.parse
  rw [if_neg (by rw [hctl]; decide), if_neg (by simp), if_neg hstar, hscheme]
  have hl : strings.ToLower [] = [] := rfl
  simp only [hl]
  by_cases h3 : strings.HasSuffix (ch '/' :: tl) (str "?") = true ∧
      strings.Count (ch '/' :: tl) (ch '?') = 1
  · rw [if_pos h3]
    have hne : tl ≠ [] := by
      intro h; subst h
      have := h3.1
      revert this; decide
    have hlen : 0 < tl.length := List.length_pos.mpr hne
    have h1 := hpre ((ch '/' :: tl).length - 1) (by simp; omega)
    obtain ⟨u', hu', hh⟩ := setPath_plain { Scheme := [], ForceQuery := true }
      _ (hnp ((ch '/' :: tl).length - 1))
    refine ⟨u', ?_, hh⟩
    simp only [h1]
    simpa using hu'
  · rw [if_neg h3]
    obtain ⟨k, hk, hcut⟩ :
        ∃ k, 0 < k ∧ (strings.Cut (ch '/' :: tl) (str "?")).1 = (ch '/' :: tl).take k := by
      unfold strings.Cut
      cases hi : strings.Index (ch '/' :: tl) (str "?") with
      | none => exact ⟨(ch '/' :: tl).length, by simp, by simp⟩
      | some i =>
        refine ⟨i, ?_, rfl⟩
        unfold strings.Index strings.indexFrom at hi
        rw [hq, if_neg (by simp [List.isPrefixOf]; decide)] at hi
        have := indexFrom_ge _ _ _ _ hi
        omega
    have h1 := hpre k hk
    rw [← hcut] at h1
    obtain ⟨u', hu', hh⟩ := setPath_plain
      { Scheme := [], RawQuery := (strings.Cut (ch '/' :: tl) (str "?")).2.1 }
      (strings.Cut (ch '/' :: tl) (str "?")).1 (by rw [hcut]; exact hnp k)
    refine ⟨u', ?_, hh⟩
    simp only [h1]
    simpa using hu'

/-- C2 (as amended): `prepareAllowedDomain` fails exactly when `url.ParseRequestURI`
rejects the seed, and then returns that error and no list.  Every seed without a scheme
that does not begin with `/` and is not `*` is rejected, `not a url` among them.  A seed
that is an absolute path (it begins with `/`; no control byte, no `%`) is accepted: the
hostname is empty and the result is the six strings built on the empty domain. -/
theorem prepareAllowedDomain_fails_iff :
    (∀ seed : GoString,
      (∃ err, prepareAllowedDomain seed = .error err) ↔
        ∃ e, url.ParseRequestURI seed = .error e) ∧
    (∀ (seed : GoString) (e : url.Error), url.ParseRequestURI seed = .error e →
      prepareAllowedDomain seed = .error (.urlError e)) ∧
    (∀ seed : GoString, seed ≠ str "*" → url.getScheme seed = .ok ([], seed) →
      strings.HasPrefix seed (str "/") = false →
      ∃ cause, prepareAllowedDomain seed = .error (.urlError ⟨str "parse", seed, cause⟩)) ∧
    prepareAllowedDomain (str "not a url") =
      .error (.urlError ⟨str "parse", str "not a url", .invalidURIForRequest⟩) ∧
    (∀ seed : GoString, strings.HasPrefix seed (str "/") = true →
      url.stringContainsCTLByte seed = false → ch '%' ∉ seed →
      prepareAllowedDomain seed =
        .ok [[], str "www.", str "http://", str "https://", str "http://www.",
             str "https://www."]) := by
  refine ⟨?_, prepareAllowedDomain_error, ?_, by decide, ?_⟩
  · intro seed
    cases hu : url.ParseRequestURI seed with
    | error e =>
      rw [prepareAllowedDomain_error _ _ hu]
      exact ⟨fun _ => ⟨e, rfl⟩, fun _ => ⟨_, rfl⟩⟩
    | ok u =>
      rw [prepareAllowedDomain_ok _ _ hu]
      constructor
      · rintro ⟨err, h⟩; cases h
      · rintro ⟨e, h⟩; cases h
  · intro seed hstar hscheme hslash
    obtain ⟨cause, hc⟩ := parse_rejects_rootless seed hstar hscheme hslash
    refine ⟨cause, prepareAllowedDomain_error _ _ ?_⟩
    simp only [url.ParseRequestURI, hc]
  · intro seed hslash hctl hpct
    obtain ⟨u, hu, hhost⟩ := parse_accepts_absolute_path seed hslash hctl hpct
    have hp : url.ParseRequestURI seed = .ok u := by
      simp only [url.ParseRequestURI, hu]
    have hn : u.Hostname = [] := by
      unfold url.URL.Hostname
      rw [hhost]
      decide
    rw [prepareAllowedDomain_ok _ _ hp, hn]
    decide

/-- The seed `example.com/start`: no scheme, not an absolute path. -/
theorem prepareAllowedDomain_fails_iff_witness :
    ∃ cause, prepareAllowedDomain (str "example.com/start") =
      .error (.urlError ⟨str "parse", str "example.com/start", cause⟩) :=
  prepareAllowedDomain_fails_iff.2.2.1 (str "example.com/start") (by decide) (by decide)
    (by decide)

/-- C2, counterexample to the claim as stated: the seed `/start` has no scheme and no
host, yet `url.ParseRequestURI` accepts it (as an absolute path) and
`prepareAllowedDomain` returns six strings built on the empty domain, and no error. -/
theorem prepareAllowedDomain_accepts_absolute_path :
    url.getScheme (str "/start") = .ok ([], str "/start") ∧
    url.ParseRequestURI (str "/start") = .ok { Path := str "/start" } ∧
    prepareAllowedDomain (str "/start") =
      .ok [[], str "www.", str "http://", str "https://", str "http://www.",
           str "https://www."] ∧
    ¬ ∃ err, prepareAllowedDomain (str "/start") = .error err := by
  refine ⟨by decide, by decide, by decide, ?_⟩
  rintro ⟨err, h⟩
  have hok : prepareAllowedDomain (str "/start") =
      .ok [[], str "www.", str "http://", str "https://", str "http://www.",
           str "https://www."] := by decide
  rw [hok] at h
  cases h

/-! ## Properties of `Scrape` -/

/-- The events of `Scraper.Log` are log lines. -/
theorem Log_isLog (s : Scraper P) (v : List LogArg) : ∀ ev ∈ s.Log v, ev.isLog = true := by
  intro ev hev
  unfold Scraper.Log at hev
  split at hev
  · simp at hev; subst hev; rfl
  · simp at hev

/-- The response hook, case by case on what the context holds under `TIME_START`. -/
theorem onResponse_eq (s : Scraper P) (r : colly.Response) (now : time.Time) :
    s.onResponse r now =
      match r.Ctx.GetAny TIME_START with
      | none =>
        (.returned (), s.Log [.text (str "Received response from"), .text r.Request.URL] ++
          [.waitGroupAdd 1, .goProcessPage
            { Url := r.Request.URL, Data := r.Body, StatusCode := r.StatusCode,
              Depth := r.Request.Depth, Headers := r.Headers }])
      | some (.time start) =>
        (.returned (), s.Log [.text (str "Received response from"), .text r.Request.URL] ++
          [.waitGroupAdd 1, .goProcessPage
            { Url := r.Request.URL, Data := r.Body, StatusCode := r.StatusCode,
              Depth := r.Request.Depth, Headers := r.Headers,
              Duration := now.Sub start }])
      | some (.other _) =>
        (.panicked, s.Log [.text (str "Received response from"), .text r.Request.URL]) := by
  unfold Scraper.onResponse
  cases hg : colly.Context.GetAny r.Ctx TIME_START with
  | none => rfl
  | some a => cases a <;> rfl

/-- The hooks run after a hook that returns. -/
theorem runHooks_cons_returned (s : Scraper P) (cb : Callback) (rest : List Callback)
    (evs : List Event) (h : s.runHook cb = (.returned (), evs)) :
    s.runHooks (cb :: rest) = (evs ++ (s.runHooks rest).1, (s.runHooks rest).2) := by
  simp only [Scraper.runHooks, h]

/-- No hook runs after a hook that panics. -/
theorem runHooks_cons_panicked (s : Scraper P) (cb : Callback) (rest : List Callback)
    (evs : List Event) (h : s.runHook cb = (.panicked, evs)) :
    s.runHooks (cb :: rest) = (evs, true) := by
  simp only [Scraper.runHooks, h]

/-- A hook returns or panics. -/
theorem runHook_cases (s : Scraper P) (cb : Callback) :
    (∃ evs, s.runHook cb = (.returned (), evs)) ∨
      (∃ evs, s.runHook cb = (.panicked, evs)) := by
  rcases h : s.runHook cb with ⟨_ | _, evs⟩
  · exact Or.inl ⟨evs, rfl⟩
  · exact Or.inr ⟨evs, rfl⟩

/-- The hooks do not panic when each response context holds a time or nothing under
`TIME_START`. -/
theorem runHooks_no_panic (s : Scraper P) (cbs : List Callback)
    (h : cbs.all Callback.startIsTime = true) : (s.runHooks cbs).2 = false := by
  induction cbs with
  | nil => rfl
  | cons cb rest ih =>
    simp only [List.all_cons, Bool.and_eq_true] at h
    have hr := ih h.2
    have hret : ∃ evs, s.runHook cb = (.returned (), evs) := by
      cases cb with
      | request r now => exact ⟨_, rfl⟩
      | html e visit => exact ⟨_, rfl⟩
      | response r now =>
        have h1 := h.1
        simp only [Callback.startIsTime] at h1
        simp only [Scraper.runHook]
        rw [onResponse_eq]
        cases hg : colly.Context.GetAny r.Ctx TIME_START with
        | none => exact ⟨_, rfl⟩
        | some a =>
          cases a with
          | time t => exact ⟨_, rfl⟩
          | other v => rw [hg] at h1; simp at h1
    obtain ⟨evs, hevs⟩ := hret
    rw [runHooks_cons_returned s cb rest evs hevs]
    exact hr

/-- The value returned by `Scrape` after a successful domain derivation: `nil`, unless a
hook panicked. -/
theorem Scrape_ok_outcome (s : Scraper P) (run : EngineRun) (allowed : List GoString)
    (h : prepareAllowedDomain s.Website = .ok allowed) :
    (s.Scrape run).1 = .returned none ∨ (s.Scrape run).1 = .panicked := by
  unfold Scraper.Scrape
  simp only [h]
  rcases hv : s.runHooks run.duringVisit with ⟨evs, _ | _⟩
  · simp only []
    rcases hw : s.runHooks run.duringWait with ⟨evs', _ | _⟩
    · exact Or.inl rfl
    · exact Or.inr rfl
  · exact Or.inr rfl

/-- C3: `Scrape` returns a non-nil error if and only if `prepareAllowedDomain` fails on
`s.Website`.  In that case it returns that very error and its events are the first log
line, the creation and configuration of the collector and the log line of the failure:
no hook is registered by `Scrape`, `Visit` and `Wait` are not called.  In every other
case `Scrape` returns `nil`, whatever the seed `Visit` and the link `Visit`s report (the
contexts of the responses holding a time or nothing under `TIME_START`). -/
theorem Scrape_error_iff (s : Scraper P) (run : EngineRun) :
    ((∃ err, (s.Scrape run).1 = .returned (some err)) ↔
      ∃ err, prepareAllowedDomain s.Website = .error err) ∧
    (∀ err, prepareAllowedDomain s.Website = .error err →
      (s.Scrape run).1 = .returned (some err) ∧
      (s.Scrape run).2 =
        s.Log [.text (str "About to scrap"), .text s.Website] ++
        [.NewCollector, .RandomUserAgent, .setMaxDepth s.MaxDepth, .setAsync s.Async] ++
        s.Log [.text (str "Failed to prepare allowed domains."), .error err] ∧
      ∀ ev ∈ (s.Scrape run).2, ev.usesEngine = false) ∧
    (∀ allowed, prepareAllowedDomain s.Website = .ok allowed → run.startIsTime = true →
      (s.Scrape run).1 = .returned none) := by
  have herr : ∀ err, prepareAllowedDomain s.Website = .error err →
      s.Scrape run = (.returned (some err),
        s.Log [.text (str "About to scrap"), .text s.Website] ++
        [.NewCollector, .RandomUserAgent, .setMaxDepth s.MaxDepth, .setAsync s.Async] ++
        s.Log [.text (str "Failed to prepare allowed domains."), .error err]) := by
    intro err h
    unfold Scraper.Scrape
    simp only [h]
  refine ⟨?_, ?_, ?_⟩
  · cases h : prepareAllowedDomain s.Website with
    | error err =>
      rw [herr err h]
      exact ⟨fun _ => ⟨err, rfl⟩, fun _ => ⟨err, rfl⟩⟩
    | ok allowed =>
      constructor
      · rintro ⟨err, he⟩
        rcases Scrape_ok_outcome s run allowed h with h' | h' <;> rw [h'] at he <;> cases he
      · rintro ⟨err, he⟩; cases he
  · intro err h
    rw [herr err h]
    refine ⟨rfl, rfl, ?_⟩
    intro ev hev
    simp only [List.mem_append] at hev
    rcases hev with (hev | hev) | hev
    · have := Log_isLog s _ ev hev
      cases ev <;> simp_all [Event.isLog, Event.usesEngine]
    · simp only [List.mem_cons, List.mem_singleton, List.not_mem_nil, or_false] at hev
      rcases hev with rfl | rfl | rfl | rfl <;> rfl
    · have := Log_isLog s _ ev hev
      cases ev <;> simp_all [Event.isLog, Event.usesEngine]
  · intro allowed h hrun
    simp only [EngineRun.startIsTime, Bool.and_eq_true] at hrun
    have hv := runHooks_no_panic s _ hrun.1
    have hw := runHooks_no_panic s _ hrun.2
    unfold Scraper.Scrape
    simp only [h]
    rcases hv' : s.runHooks run.duringVisit with ⟨evs, b⟩
    rw [hv'] at hv; simp only at hv; subst hv
    simp only []
    rcases hw' : s.runHooks run.duringWait with ⟨evs', b'⟩
    rw [hw'] at hw; simp only at hw; subst hw
    rfl

/-- Log lines are neither `waitGroup.Add` calls nor started tasks. -/
theorem Log_filterMap (s : Scraper P) (v : List LogArg) :
    (s.Log v).filterMap Event.added = [] ∧ (s.Log v).filterMap Event.spawned = [] := by
  unfold Scraper.Log
  split <;> exact ⟨rfl, rfl⟩

/-- The events of a response hook that returns: the log call, `waitGroup.Add(1)` and
the start of one processing task. -/
theorem onResponse_events (s : Scraper P) (r : colly.Response) (now : time.Time)
    (h : (s.onResponse r now).1 = .returned ()) :
    ∃ p : PageResponse,
      (s.onResponse r now).2 =
        s.Log [.text (str "Received response from"), .text r.Request.URL] ++
          [Event.waitGroupAdd 1, Event.goProcessPage p] := by
  rw [onResponse_eq] at h ⊢
  cases hg : colly.Context.GetAny r.Ctx TIME_START with
  | none => exact ⟨_, rfl⟩
  | some a =>
    cases a with
    | other v => rw [hg] at h; cases h
    | time t => exact ⟨_, rfl⟩

/-- C8: when the response hook returns it has called `waitGroup.Add(1)` exactly once
and started exactly one processing task, on a `PageResponse` whose `Url`, `Data`,
`StatusCode`, `Depth` and `Headers` are the request URL, the body, the status, the
request depth and the headers of the response; its `Duration` is `now.Sub(start)` (the
difference `now - start` when it fits a `Duration`) when a time `start` is stored under
`TIME_START`, and zero when nothing is stored.  In both cases the hook returns (it does
not panic). -/
theorem onResponse_page (s : Scraper P) (r : colly.Response) (now : time.Time) :
    ((s.onResponse r now).1 = .returned () →
      ∃ p : PageResponse,
        (s.onResponse r now).2 =
          s.Log [.text (str "Received response from"), .text r.Request.URL] ++
            [Event.waitGroupAdd 1, Event.goProcessPage p] ∧
        (s.onResponse r now).2.filterMap Event.added = [(1 : Int)] ∧
        (s.onResponse r now).2.filterMap Event.spawned = [p] ∧
        p.Url = r.Request.URL ∧ p.Data = r.Body ∧ p.StatusCode = r.StatusCode ∧
        p.Depth = r.Request.Depth ∧ p.Headers = r.Headers ∧
        (∀ start, r.Ctx.GetAny TIME_START = some (.time start) →
          p.Duration = now.Sub start ∧
          (time.minDuration ≤ now.ns - start.ns → now.ns - start.ns ≤ time.maxDuration →
            p.Duration = now.ns - start.ns)) ∧
        (r.Ctx.GetAny TIME_START = none → p.Duration = 0)) ∧
    ((∃ start, r.Ctx.GetAny TIME_START = some (.time start)) →
      (s.onResponse r now).1 = .returned ()) ∧
    (r.Ctx.GetAny TIME_START = none → (s.onResponse r now).1 = .returned ()) := by
  have hsub : ∀ start : time.Time, time.minDuration ≤ now.ns - start.ns →
      now.ns - start.ns ≤ time.maxDuration → now.Sub start = now.ns - start.ns := by
    intro start h1 h2
    unfold time.Time.Sub
    simp only []
    rw [if_neg (not_lt.mpr h1), if_neg (not_lt.mpr h2)]
  have hfm : ∀ p : PageResponse,
      (s.Log [.text (str "Received response from"), .text r.Request.URL] ++
        [Event.waitGroupAdd 1, Event.goProcessPage p]).filterMap Event.added = [(1 : Int)] ∧
      (s.Log [.text (str "Received response from"), .text r.Request.URL] ++
        [Event.waitGroupAdd 1, Event.goProcessPage p]).filterMap Event.spawned = [p] := by
    intro p
    rw [List.filterMap_append, List.filterMap_append, (Log_filterMap s _).1,
      (Log_filterMap s _).2]
    exact ⟨rfl, rfl⟩
  rw [onResponse_eq]
  refine ⟨?_, ?_, ?_⟩
  · intro h
    cases hg : colly.Context.GetAny r.Ctx TIME_START with
    | none =>
      refine ⟨_, rfl, (hfm _).1, (hfm _).2, rfl, rfl, rfl, rfl, rfl, ?_, fun _ => rfl⟩
      intro start hs; cases hs
    | some a =>
      cases a with
      | other v => rw [hg] at h; cases h
      | time t =>
        refine ⟨_, rfl, (hfm _).1, (hfm _).2, rfl, rfl, rfl, rfl, rfl, ?_, ?_⟩
        · intro start hs
          injection hs with hs
          injection hs with hs
          subst hs
          exact ⟨rfl, hsub _⟩
        · intro hn; cases hn
  · rintro ⟨start, hs⟩
    rw [hs]
  · intro hn
    rw [hn]

/-- The response hook that follows the request hook: with the context that the request
hook left at time `t`, the response hook returns and the page has the duration
`now.Sub(t)`. -/
theorem onResponse_after_onRequest (s : Scraper P) (req : colly.Request) (t now : time.Time)
    (r : colly.Response) (hctx : r.Ctx = (s.onRequest req t).1.Ctx) :
    ∃ p : PageResponse, s.onResponse r now =
      (.returned (), s.Log [.text (str "Received response from"), .text r.Request.URL] ++
        [Event.waitGroupAdd 1, Event.goProcessPage p]) ∧ p.Duration = now.Sub t := by
  have hg : colly.Context.GetAny r.Ctx TIME_START = some (.time t) := by
    rw [hctx]
    simp [Scraper.onRequest, colly.Context.Put, colly.Context.GetAny, List.lookup]
  rw [onResponse_eq, hg]
  exact ⟨_, rfl, rfl⟩

/-- Replacing the result of a link visit does not change how the hook ends. -/
theorem runHook_mapVisit (s : Scraper P) (f : Option GoError → Option GoError)
    (cb : Callback) : (s.runHook (Callback.mapVisit f cb)).1 = (s.runHook cb).1 := by
  cases cb <;> rfl

/-- Replacing the results of the link visits does not change whether a hook panics. -/
theorem runHooks_mapVisit (s : Scraper P) (f : Option GoError → Option GoError)
    (cbs : List Callback) :
    (s.runHooks (cbs.map (Callback.mapVisit f))).2 = (s.runHooks cbs).2 := by
  induction cbs with
  | nil => rfl
  | cons cb rest ih =>
    rw [List.map_cons]
    rcases runHook_cases s cb with ⟨evs, h⟩ | ⟨evs, h⟩
    · have h2 : s.runHook (Callback.mapVisit f cb) =
          (.returned (), (s.runHook (Callback.mapVisit f cb)).2) :=
        Prod.ext (by rw [runHook_mapVisit, h]) rfl
      rw [runHooks_cons_returned s _ _ _ h, runHooks_cons_returned s _ _ _ h2]
      exact ih
    · have h2 : s.runHook (Callback.mapVisit f cb) =
          (.panicked, (s.runHook (Callback.mapVisit f cb)).2) :=
        Prod.ext (by rw [runHook_mapVisit, h]) rfl
      rw [runHooks_cons_panicked s _ _ _ h, runHooks_cons_panicked s _ _ _ h2]

/-- The value returned by `Scrape` is decided by the domain derivation and by whether a
hook panics during `c.Visit` or `c.Wait`. -/
theorem Scrape_outcome_eq (s : Scraper P) (run : EngineRun) :
    (s.Scrape run).1 =
      match prepareAllowedDomain s.Website with
      | .error err => .returned (some err)
      | .ok _ =>
        if (s.runHooks run.duringVisit).2 = true then .panicked
        else if (s.runHooks run.duringWait).2 = true then .panicked
        else .returned none := by
  unfold Scraper.Scrape
  cases h : prepareAllowedDomain s.Website with
  | error err => rfl
  | ok allowed =>
    simp only []
    rcases hv : s.runHooks run.duringVisit with ⟨evs, _ | _⟩
    · simp only []
      rcases hw : s.runHooks run.duringWait with ⟨evs', _ | _⟩
      · simp
      · simp
    · simp

/-- C9 (as amended): when `Visit` of the link reports `ErrAlreadyVisited` the link hook
does exactly what it does when `Visit` reports no error (a `visiting: ` log call and
the `Visit`): no error line.  When `Visit` reports any other error the hook also calls
`s.Log("error while linking: ", err.Error())`, which writes one line when `PrintLogs`
is set and nothing when it is not.  The value returned by `Scrape` does not depend on
what the link `Visit`s report. -/
theorem onHTML_logs (s : Scraper P) (e : colly.HTMLElement) :
    s.onHTML e (some .ErrAlreadyVisited) = s.onHTML e none ∧
    s.onHTML e none =
      s.Log [.text (str "visiting: "), .text (e.Attr (str "href"))] ++
        [.requestVisit (e.Attr (str "href"))] ∧
    (∀ err, err ≠ .ErrAlreadyVisited →
      s.onHTML e (some err) = s.onHTML e none ++
        s.Log [.text (str "error while linking: "), .errorText err]) ∧
    (∀ v, s.PrintLogs = true → s.Log v = [.logPrint s.ID v]) ∧
    (∀ v, s.PrintLogs = false → s.Log v = []) ∧
    (∀ (run : EngineRun) (f : Option GoError → Option GoError),
      (s.Scrape (run.mapVisit f)).1 = (s.Scrape run).1) := by
  refine ⟨?_, ?_, ?_, ?_, ?_, ?_⟩
  · simp [Scraper.onHTML]
  · simp [Scraper.onHTML]
  · intro err herr
    simp [Scraper.onHTML, herr]
  · intro v h; simp [Scraper.Log, h]
  · intro v h; simp [Scraper.Log, h]
  · intro run f
    rw [Scrape_outcome_eq, Scrape_outcome_eq]
    simp only [EngineRun.mapVisit, runHooks_mapVisit]

/-- The run `exampleRun`: the seed `Visit` and a link `Visit` fail, `Scrape` returns `nil`. -/
theorem Scrape_error_iff_witness : (exampleScraper.Scrape exampleRun).1 = .returned none :=
  (Scrape_error_iff exampleScraper exampleRun).2.2
    [str "example.com", str "www.example.com", str "http://example.com",
      str "https://example.com", str "http://www.example.com", str "https://www.example.com"]
    (by decide) (by decide)

/-- The response `exampleResponse` received at time `1500`. -/
theorem onResponse_page_witness :
    (exampleScraper.onResponse exampleResponse ⟨1500⟩).1 = .returned () :=
  (onResponse_page exampleScraper exampleResponse ⟨1500⟩).2.1 ⟨⟨1000⟩, by decide⟩

/-- C9, counterexample to the claim as stated: with `PrintLogs` off, a link `Visit`
that fails with an error other than `ErrAlreadyVisited` leaves no line in the log. -/
theorem onHTML_quiet_logs_nothing :
    GoError.other (str "Forbidden domain") ≠ GoError.ErrAlreadyVisited ∧
    quietScraper.onHTML exampleAnchor (some (.other (str "Forbidden domain"))) =
      [.requestVisit (str "https://other.org/")] ∧
    (quietScraper.onHTML exampleAnchor (some (.other (str "Forbidden domain")))).filter
      Event.isLog = [] := by
  decide

/-- With `PrintLogs` set, the error line of a link `Visit` that fails. -/
theorem onHTML_logs_witness :
    exampleScraper.onHTML exampleAnchor (some (.other (str "Forbidden domain"))) =
      exampleScraper.onHTML exampleAnchor none ++
        [.logPrint 7 [.text (str "error while linking: "),
          .errorText (.other (str "Forbidden domain"))]] :=
  (onHTML_logs exampleScraper exampleAnchor).2.2.1 _ (by decide)

/-! ## Properties of `Report` -/

/-- The slice built by the loop of `Report`. -/
theorem foldl_append_values (l : List (GoString × P)) (init : List P) :
    l.foldl (fun result kv => result ++ [kv.2]) init = init ++ l.map Prod.snd := by
  induction l generalizing init with
  | nil => simp
  | cons kv l ih => simp [List.foldl_cons, ih]

/-- The slice returned by `Report`: the values of the entries in the order of the
iteration. -/
theorem Report_result (s : Scraper P) (order : RangeOrder) :
    (s.Report order).1 = (range s.stats order).map Prod.snd := by
  simp [Scraper.Report, foldl_append_values]

/-- C4: the slice returned by `Report` holds the value of every entry of the store
exactly once and nothing else (it is a permutation of the values), its length is the
number of entries, `Report` leaves the scraper and its store as they are, a nil or
empty store gives an empty slice, and a second `Report` returns the same contents up to
order. -/
theorem Report_snapshot (s : Scraper P) (order : RangeOrder) :
    (s.Report order).1.Perm (values s.stats) ∧
    (s.Report order).1.length = len s.stats ∧
    (s.Report order).2.1 = s ∧
    (s.stats = none ∨ s.stats = some [] → (s.Report order).1 = []) ∧
    ∀ order₂ : RangeOrder,
      ((s.Report order).2.1.Report order₂).1.Perm (s.Report order).1 := by
  have hperm : ∀ o : RangeOrder, (s.Report o).1.Perm (values s.stats) := by
    intro o
    rw [Report_result]
    cases hs : s.stats with
    | none => simp [range, values]
    | some entries =>
      simp only [range, values]
      exact (o.perm entries).map _
  have hsame : (s.Report order).2.1 = s := rfl
  refine ⟨hperm order, ?_, hsame, ?_, ?_⟩
  · have := (hperm order).length_eq
    rw [this]
    cases hs : s.stats with
    | none => rfl
    | some entries => simp [values, len]
  · intro h
    have hp := hperm order
    rcases h with h | h <;> rw [h] at hp <;> simpa [values] using hp
  · intro order₂
    rw [hsame]
    exact (hperm order₂).trans (hperm order).symm

/-- The store of `exampleScraper` visited last to first: both values, in another order. -/
theorem Report_snapshot_witness :
    (exampleScraper.Report reverseOrder).1 = [2, 1] ∧
    ((exampleScraper.Report reverseOrder).1).Perm (values exampleScraper.stats) :=
  ⟨by decide, (Report_snapshot exampleScraper reverseOrder).1⟩

/-- The events of `Report`. -/
theorem Report_events (s : Scraper P) (order : RangeOrder) :
    (s.Report order).2.2 =
      [Event.statsLen] ++ s.Log [.text (str "Reporting stats count"), .int (len s.stats)] ++
        [Event.statsLen, Event.statsRange] := by
  simp [Scraper.Report]

/-- C5 (as amended): `Report` calls neither `s.mutex.Lock()` nor `s.mutex.Unlock()`; it
reads the store (`len(s.stats)`, `range s.stats`) without taking the mutex. -/
theorem Report_takes_no_lock (s : Scraper P) (order : RangeOrder) :
    Event.mutexLock ∉ (s.Report order).2.2 ∧
    Event.mutexUnlock ∉ (s.Report order).2.2 ∧
    Event.statsLen ∈ (s.Report order).2.2 ∧
    Event.statsRange ∈ (s.Report order).2.2 ∧
    readsUnderLock false (s.Report order).2.2 = false := by
  rw [Report_events]
  unfold Scraper.Log
  split <;> simp [readsUnderLock]

/-- C5, counterexample to the claim as stated: on a store of two entries `Report` returns
both values; its events are two `len` reads, a log line and the `range` read, none under
the mutex. -/
theorem Report_reads_without_lock :
    (exampleScraper.Report listOrder).1 = [1, 2] ∧
    (exampleScraper.Report listOrder).2.2 =
      [.statsLen, .logPrint 7 [.text (str "Reporting stats count"), .int 2], .statsLen,
        .statsRange] ∧
    readsUnderLock false (exampleScraper.Report listOrder).2.2 = false := by
  decide

/-! ## Order of the synchronisation calls -/

/-- The response hook calls `waitGroup.Add(1)` immediately before it starts the
processing task, and does nothing after. -/
theorem onResponse_add_before_go (s : Scraper P) (r : colly.Response) (now : time.Time)
    (h : (s.onResponse r now).1 = .returned ()) :
    ∃ p, (s.onResponse r now).2.drop ((s.onResponse r now).2.length - 2) =
      [.waitGroupAdd 1, .goProcessPage p] := by
  obtain ⟨p, hp⟩ := onResponse_events s r now h
  refine ⟨p, ?_⟩
  rw [hp]
  simp

/-- The hooks call neither `c.Wait()` nor `s.waitGroup.Wait()`. -/
theorem runHook_not_wait (s : Scraper P) (cb : Callback) :
    Event.Wait ∉ (s.runHook cb).2 ∧ Event.waitGroupWait ∉ (s.runHook cb).2 := by
  cases cb with
  | request r now => simp [Scraper.runHook, Scraper.onRequest]
  | html e visit =>
    simp only [Scraper.runHook]
    unfold Scraper.onHTML Scraper.Log
    cases visit with
    | none => split <;> simp
    | some err => split <;> split <;> simp
  | response r now =>
    simp only [Scraper.runHook]
    rw [onResponse_eq]
    unfold Scraper.Log
    cases hg : colly.Context.GetAny r.Ctx TIME_START with
    | none => split <;> simp
    | some a => cases a <;> split <;> simp

/-- The hooks run by the engine call neither `c.Wait()` nor `s.waitGroup.Wait()`. -/
theorem runHooks_not_wait (s : Scraper P) (cbs : List Callback) :
    Event.Wait ∉ (s.runHooks cbs).1 ∧ Event.waitGroupWait ∉ (s.runHooks cbs).1 := by
  induction cbs with
  | nil => simp [Scraper.runHooks]
  | cons cb rest ih =>
    have := runHook_not_wait s cb
    rcases runHook_cases s cb with ⟨evs, h⟩ | ⟨evs, h⟩
    · rw [runHooks_cons_returned s _ _ _ h]
      rw [h] at this
      simp only [List.mem_append, not_or]
      exact ⟨⟨this.1, ih.1⟩, ⟨this.2, ih.2⟩⟩
    · rw [runHooks_cons_panicked s _ _ _ h]
      rw [h] at this
      exact this

/-- When `Scrape` returns after a successful domain derivation, `c.Wait()` is called
once, then the hooks of the responses still in flight run, and `s.waitGroup.Wait()` is
the last call, made once. -/
theorem Scrape_waits_in_order (s : Scraper P) (run : EngineRun) (allowed : List GoString)
    (h : prepareAllowedDomain s.Website = .ok allowed)
    (hret : (s.Scrape run).1 = .returned none) :
    ∃ before, (s.Scrape run).2 =
      before ++ [.Wait] ++ (s.runHooks run.duringWait).1 ++
        s.Log [.text (str "Waiting for the page processing to finish...")] ++
        [.waitGroupWait] ∧ Event.Wait ∉ before ∧ Event.waitGroupWait ∉ before := by
  unfold Scraper.Scrape at hret ⊢
  simp only [h] at hret ⊢
  have hv := runHooks_not_wait s run.duringVisit
  rcases hv' : s.runHooks run.duringVisit with ⟨evs, _ | _⟩
  · rw [hv'] at hv
    simp only [hv'] at hret ⊢
    rcases hw' : s.runHooks run.duringWait with ⟨evs', _ | _⟩
    · simp only [hw'] at hret ⊢
      refine ⟨s.Log [.text (str "About to scrap"), .text s.Website] ++
        [.NewCollector, .RandomUserAgent, .setMaxDepth s.MaxDepth, .setAsync s.Async] ++
        [.setAllowedDomains allowed, .OnRequest, .OnResponse, .OnHTML (str "a[href]"),
          .Visit s.Website] ++ evs ++
        (match run.visit with
         | some err => s.Log [.text (str "error while visiting:"), .errorText err]
         | none => []) ++
        s.Log [.text (str "Waiting for the scape to finish...")], ?_, ?_⟩
      · cases run.visit <;> simp only [List.append_assoc]
      · have h1 := hv.1
        have h2 := hv.2
        simp only at h1 h2
        unfold Scraper.Log
        cases run.visit <;> split <;> simp [h1, h2]
    · simp only [hw'] at hret; cases hret
  · simp only [hv'] at hret; cases hret

end Mink
